import Mathlib

/-!
Verification of the avito-stream watcher core against its natural-language
specification.  The definitions below are a shallow embedding of the
TypeScript source: each Lean function mirrors one function (or the pure
decision core of one method) of the repository.  JavaScript strings are
modelled as Lean `String`s; the regular expressions used by the source are
all of the form "substring, optionally followed by a boundary character",
and are embedded as explicit substring searches.
-/

namespace AvitoStream

/-! ## String primitives (JS semantics used by the source) -/

/-- ASCII and Russian-Cyrillic lowercasing of one character.  The source
applies JavaScript `toLowerCase` / the `i` regex flag; every pattern that
case-insensitivity is applied to in the repository consists of ASCII and
lowercase-Cyrillic characters, so lowering those two ranges is an exact
model on the relevant alphabet. -/
def jsLowerChar (c : Char) : Char :=
  if 'A' ≤ c ∧ c ≤ 'Z' then Char.ofNat (c.toNat + 32)
  else if 'А' ≤ c ∧ c ≤ 'Я' then Char.ofNat (c.toNat + 32)
  else if c = 'Ё' then 'ё'
  else c

/-- Lowercase a string (JS `toLowerCase` on the alphabets used here). -/
def jsLower (s : String) : List Char := s.data.map jsLowerChar

/-- Does predicate `p` hold of some suffix of `l`?  This is the search
performed by an unanchored regular-expression test. -/
def existsSuffix (p : List Char → Bool) : List Char → Bool
  | [] => p []
  | c :: rest => p (c :: rest) || existsSuffix p rest

/-- `containsSub pat s`: `pat` occurs as a contiguous substring of `s`
(the JS `re.test` of an unanchored literal pattern). -/
def containsSub (pat : List Char) (s : List Char) : Bool :=
  existsSuffix (fun t => pat.isPrefixOf t) s

/-- The `(\/|\?|$)` boundary used by the messenger regexes: the remainder
after the literal pattern is empty or starts with `/` or `?`. -/
def boundaryOk : List Char → Bool
  | [] => true
  | c :: _ => c = '/' || c = '?'

/-- `subThenBoundary pat s`: `pat` occurs in `s` immediately followed by
end-of-string, `/` or `?` (embedding of `pat(\/|\?|$)`). -/
def subThenBoundary (pat : List Char) (s : List Char) : Bool :=
  existsSuffix (fun t => pat.isPrefixOf t && boundaryOk (t.drop pat.length)) s

/-- The strict variant of `boundaryOk`: an explicit `/` or `?` character
is present (end-of-string does not count).  A match of this form inside a
prefix survives appending arbitrary text. -/
def boundaryChar : List Char → Bool
  | [] => false
  | c :: _ => c = '/' || c = '?'

/-- `subThenBoundaryStrict pat s`: `pat` occurs in `s` immediately
followed by an explicit `/` or `?` character. -/
def subThenBoundaryStrict (pat : List Char) (s : List Char) : Bool :=
  existsSuffix (fun t => pat.isPrefixOf t && boundaryChar (t.drop pat.length)) s

/-- JS `String.prototype.trim` on a character list: strip leading and
trailing whitespace. -/
def jsTrimList (l : List Char) : List Char :=
  ((l.dropWhile Char.isWhitespace).reverse.dropWhile Char.isWhitespace).reverse

/-- JS `String.prototype.trim`. -/
def jsTrim (s : String) : String := ⟨jsTrimList s.data⟩

/-! ## URL tests of the bind controller (src/unnamed/part_003)

`messengerUrlRe = /avito\.ru\/(profile\/)?messenger(\/|\?|$)/i`
`messengerChannelUrlRe = /avito\.ru\/(profile\/)?messenger\/channel\//i`
`messengerChannelPathRe = /\/profile\/messenger\/channel\//i`
`messengerSearchRe = /\/profile\/messenger(\/|\?|$)/i`
`messengerSearchQueryRe = /[?&]q=/i`
An optional group `(profile\/)?` makes the pattern an alternation of the
two literal spellings. -/

def messengerUrlTest (s : List Char) : Bool :=
  subThenBoundary "avito.ru/messenger".data s ||
  subThenBoundary "avito.ru/profile/messenger".data s

def messengerChannelUrlTest (s : List Char) : Bool :=
  containsSub "avito.ru/messenger/channel/".data s ||
  containsSub "avito.ru/profile/messenger/channel/".data s

def messengerChannelPathTest (s : List Char) : Bool :=
  containsSub "/profile/messenger/channel/".data s

def messengerSearchTest (s : List Char) : Bool :=
  subThenBoundary "/profile/messenger".data s

def messengerSearchQueryTest (s : List Char) : Bool :=
  containsSub "?q=".data s || containsSub "&q=".data s

/-- The controller's `BindKind` union
(`'channel' | 'search' | 'messenger' | 'other' | 'none'`). -/
inductive BindKind where
  | channel
  | search
  | messenger
  | other
  | none
deriving DecidableEq, Repr

/-- `BindController.isChannelUrl` (part_003): channel-URL or channel-path
regex matches. -/
def isChannelUrl (url : String) : Bool :=
  messengerChannelUrlTest (jsLower url) || messengerChannelPathTest (jsLower url)

/-- `BindController.classifyUrl` (part_003 lines 146–158). -/
def classifyUrl (url : String) : BindKind :=
  if isChannelUrl url then .channel
  else if messengerUrlTest (jsLower url) || messengerSearchTest (jsLower url) then
    if messengerSearchQueryTest (jsLower url) then .search else .messenger
  else .other

/-- `BindController.normalizeUrl` (part_003): a path starting with `/` is
prefixed with the fixed origin. -/
def normalizeUrl (raw : String) : String :=
  let trimmed := jsTrim raw
  if trimmed = "" then trimmed
  else if "/".data.isPrefixOf trimmed.data then "https://www.avito.ru" ++ trimmed
  else trimmed

/-! ## Watcher URL tests (src/src/avito.watcher.service.ts, lines 1221–1227)

`isMessengerUrl`   : `/avito\.ru\/(profile\/)?messenger(\/|\?|$)/i`
`isMessengerChannelUrl` : `/\/messenger\/channel\//i`
A `null` argument is coerced to the empty string (`url ?? ''`). -/

def isMessengerUrl (url : Option String) : Bool :=
  messengerUrlTest (jsLower (url.getD ""))

def isMessengerChannelUrl (url : Option String) : Bool :=
  containsSub "/messenger/channel/".data (jsLower (url.getD ""))

/-! ## Binding file model

The binding file `.avito-target.json` is read through `fs` + `JSON.parse`
inside a `try`/`catch`.  Its observable states are: the file is missing,
reading raises, parsing raises, or a record with (string-coerced) `url`
and `boundAt` fields is obtained. -/

inductive FileState where
  | missing
  | unreadable
  | unparseable
  | record (url : String) (boundAt : String)
deriving DecidableEq, Repr

/-- `AvitoWatcherService.readBoundChatUrl` (lines 1431–1444): totalised by
mapping every caught exception to `none`.  A parsed record is rejected when
its trimmed url is empty or fails `isMessengerChannelUrl`. -/
def readBoundChatUrl : FileState → Option String
  | .missing => none
  | .unreadable => none
  | .unparseable => none
  | .record url _ =>
    let u := jsTrim url
    if u = "" then none
    else if ¬ isMessengerChannelUrl (some u) then none
    else some u

/-- `BindController.read` (part_003 lines 119–131): returns the parsed
record whenever the trimmed url is non-empty, with a default `boundAt`;
every caught exception yields `none`.  No classification is applied. -/
def controllerRead : FileState → Option (String × String)
  | .missing => none
  | .unreadable => none
  | .unparseable => none
  | .record url boundAt =>
    let u := jsTrim url
    let b := jsTrim boundAt
    if u = "" then none
    else some (u, if b = "" then "1970-01-01T00:00:00.000Z" else b)

/-- A written binding record (`BindState` / the auto-bind state object). -/
structure BindRecord where
  url : String
  reason : String
deriving DecidableEq, Repr

/-- `AvitoWatcherService.maybePersistBoundChatUrl` (lines 1413–1429): the
write that happens (if any) as a function of the candidate url, the
`AUTO_BIND_ON_OPEN` flag and the reason tag.  Returns the record written
to the binding file, or `none` when the method returns without writing. -/
def maybePersistBoundChatUrl (url : Option String) (autoBind : Bool)
    (reason : String) : Option BindRecord :=
  match url with
  | none => none
  | some u =>
    if ¬ autoBind then none
    else if ¬ isMessengerUrl (some u) then none
    else some ⟨u, reason⟩

/-- Result of `AvitoWatcherService.ensureChannelUrl` as seen by the bind
controller: a resolved url (possibly `null`) and a channel flag. -/
structure EnsureResult where
  url : Option String
  channel : Bool
deriving DecidableEq, Repr

/-- The write performed by `BindController.bindCurrent` of
src/unnamed/part_002 (lines 37–76), as a function of the initial candidate
url (already trimmed) and the outcome of `ensureChannelUrl` (`none` models
a rejected promise path never taken: the method always resolves, so the
oracle is the resolved structure).  Returns the url written to the binding
file, or `none` when no write happens. -/
def bindCurrentWrite02 (initialUrl : String) (ensured : EnsureResult) :
    Option String :=
  if initialUrl = "" then none
  else if ¬ messengerUrlTest (jsLower initialUrl) then none
  else
    let finalUrl :=
      if messengerChannelUrlTest (jsLower initialUrl) then initialUrl
      else match ensured.url with
        | some u => u
        | none => initialUrl
    some finalUrl

/-- The write performed by `BindController.bindCurrent` of
src/unnamed/part_003 (lines 61–102): writes only after `classifyUrl` of
the normalized candidate returns `channel`. -/
def bindCurrentWrite03 (candidateUrl : String) : Option String :=
  if candidateUrl = "" then none
  else
    let normalizedUrl := normalizeUrl candidateUrl
    if classifyUrl normalizedUrl = .channel then some normalizedUrl else none

/-- `AvitoWatcherService.resolveTargetChatUrl` (lines 1840–1850): the
explicit `TARGET_CHAT_URL` override wins, else the persisted binding,
else `null`. -/
def resolveTargetChatUrl (direct : String) (file : FileState) : Option String :=
  if direct ≠ "" then
    some (if "http".data.isPrefixOf direct.data then direct
          else "https://www.avito.ru" ++ direct)
  else readBoundChatUrl file

/-! ## Support-chat guard and the openTargetChat loop -/

/-- Status level of emitted events. -/
inductive Level where
  | info
  | warn
  | error
deriving DecidableEq, Repr

/-- The fixed default/support name list of
`AvitoWatcherService.verifyNotSupportChat` (line 1874). -/
def supportHits : List String := ["поддержка", "служба поддержки", "avito", "авито"]

/-- The warning text emitted when a support chat is detected (line 1898;
interpolated fragments of other status messages are abbreviated to fixed
tags throughout this development). -/
def supportWarnMsg : String := "Support chat detected. Open target chat and Bind."

/-- `AvitoWatcherService.verifyNotSupportChat` (lines 1869–1905) as a
function of the chat title read from the page: the status events emitted
and the returned boolean (`true` = proceed).  The source lowercases the
title and tests each support name for substring containment. -/
def verifyNotSupportChat (title : String) : List (Level × String) × Bool :=
  let normalized := jsLower title
  let supportDetected := supportHits.any (fun w => containsSub w.data normalized)
  if title = "" then ([(.warn, "Chat title not found")], true)
  else if supportDetected then
    ([(.info, "Chat title detected"), (.warn, supportWarnMsg)], false)
  else ([(.info, "Chat title detected")], true)

/-- Outcome of one iteration of the `openTargetChat` loop
(lines 1182–1216). -/
inductive IterOutcome where
  | exitLoop
  | retryAfterDelay (delayMs : Nat)
  | enterWatch
deriving DecidableEq, Repr

/-- One iteration of `AvitoWatcherService.openTargetChat` (lines
1182–1216) as a function of the loop state (`stopping`, resolved
candidate, `supportChatDetected`, `lastAttemptUrl`) and the chat title the
page shows when `verifyNotSupportChat` runs.  Returns the iteration
outcome together with the updated `supportChatDetected` and
`lastAttemptUrl`.  `openChatUrl` (line 1854) resets `supportChatDetected`
to `false` when navigation happens. -/
def openTargetChatIter (stopping : Bool) (candidate : Option String)
    (title : String) (support : Bool) (lastAttemptUrl : Option String) :
    IterOutcome × Bool × Option String :=
  if stopping then (.exitLoop, support, lastAttemptUrl)
  else
    match candidate with
    | none => (.retryAfterDelay 3000, support, lastAttemptUrl)
    | some c =>
      let navigate : Bool := lastAttemptUrl ≠ some c || !support
      let support1 := if navigate then false else support
      let la1 := if navigate then some c else lastAttemptUrl
      if (verifyNotSupportChat title).2 then (.enterWatch, support1, la1)
      else (.retryAfterDelay 3000, true, la1)

/-! ## Change Detector: fingerprints, baseline, polling, push observer -/

/-- A message read from the page (`LastMsg`); the `at` timestamp is wall
clock at emission time and carries no decision logic, so it is omitted. -/
structure LastMsg where
  from_ : String
  text : String
deriving DecidableEq, Repr

/-- The fingerprint `` `${from}|${text}`.trim() `` used at lines 2053,
2074 and 2234. -/
def fingerprintOf (from_ text : String) : String :=
  jsTrim (from_ ++ "|" ++ text)

/-- `AvitoWatcherService.readLastMessage` (lines 2244–2357) as a function
of the trimmed `TARGET_CONTACT` name and the text its page-side extraction
produced (empty when no qualifying node exists): `null` on empty text. -/
def readLastMessage (target : String) (pageText : String) : Option LastMsg :=
  if pageText = "" then none else some ⟨target, pageText⟩

/-- `AvitoWatcherService.captureLastMessageAsBaseline` (lines 2231–2242):
stores the fingerprint of the current last message as the new suppression
floor, without emitting any message event; keeps the old floor when
nothing is read. -/
def captureLastMessageAsBaseline (floor : String) (target : String)
    (pageText : String) : String :=
  match readLastMessage target pageText with
  | none => floor
  | some m => fingerprintOf m.from_ m.text

/-- One polling iteration (lines 2051–2058): given the suppression floor
and the observed last message, the new floor and the emitted event (if
any). -/
def pollStep (floor : String) (obs : Option LastMsg) :
    String × Option LastMsg :=
  match obs with
  | none => (floor, none)
  | some m =>
    let fp := fingerprintOf m.from_ m.text
    if fp ≠ "" ∧ fp ≠ floor then (fp, some m) else (floor, none)

/-- The polling loop over a sequence of observations: the list of emitted
message events, in order. -/
def pollRun (floor : String) : List (Option LastMsg) → List LastMsg
  | [] => []
  | obs :: rest =>
    match pollStep floor obs with
    | (f2, some m) => m :: pollRun f2 rest
    | (f2, none) => pollRun f2 rest

/-- The host-side `__emitAvitoMessage` bridge (lines 2068–2079) for a
payload carrying `from` and `text`: new floor and emitted event. -/
def bridgeEmit (lastFp : String) (from_ text : String) :
    String × Option LastMsg :=
  if text = "" then (lastFp, none)
  else
    let fp := fingerprintOf from_ text
    if fp = "" ∨ fp = lastFp then (lastFp, none)
    else (fp, some ⟨from_, text⟩)

/-! ## In-page noise filter (lines 2102–2138, duplicated at 2262–2298) -/

/-- One step of whitespace-run collapsing, building the normalized list
from the right: a whitespace character is dropped at the end of the
string, merged into an already-pending space, or replaced by a single
space. -/
def normStep (c : Char) (acc : List Char) : List Char :=
  if c.isWhitespace then
    match acc with
    | [] => []
    | a :: _ => if a = ' ' then acc else ' ' :: acc
  else c :: acc

/-- JS `norm` (`replace(/\s+/g, ' ').trim()`): collapse whitespace runs
to single spaces and trim. -/
def normChars (l : List Char) : List Char :=
  (l.foldr normStep []).dropWhile (· = ' ')

/-- `norm` on strings. -/
def normString (s : String) : String := ⟨normChars s.data⟩

/-- The `exactNoise` denylist (lines 2106–2125). -/
def exactNoise : List String :=
  ["уведомления", "кошелек", "кошелёк", "платные услуги", "мои резюме",
   "избранное", "объявления", "профиль", "настройки", "помощь",
   "перейти в помощь", "поддержка", "поддержка авито", "служба поддержки",
   "партнерская программа", "услуги", "доставка", "звонки"]

/-- Weekday names of the weekday and date-label regexes (lines 2129,
2132). -/
def weekdayNames : List String :=
  ["понедельник", "вторник", "среда", "четверг", "пятница", "суббота",
   "воскресенье"]

/-- Month names of the date-label regex (line 2132). -/
def monthNames : List String :=
  ["января", "февраля", "марта", "апреля", "мая", "июня", "июля",
   "августа", "сентября", "октября", "ноября", "декабря"]

def isDigitChar (c : Char) : Bool := '0' ≤ c ∧ c ≤ '9'

/-- Consume `\s+`: at least one whitespace character, then all following
whitespace (the token after `\s+` in the pattern is never whitespace, so
greedy consumption is exact). -/
def wsPlus : List Char → Option (List Char)
  | [] => none
  | c :: r => if c.isWhitespace then some (r.dropWhile Char.isWhitespace) else none

/-- Match `\s+(january|…)$` after the day digits. -/
def dateMonthEnd (r : List Char) : Bool :=
  match wsPlus r with
  | none => false
  | some r2 => monthNames.any (fun m => r2 = m.data)

/-- Match `,?\s+\d{1,2}\s+(month)$` (the tail of the date-label regex
after the weekday). -/
def dateRest (r : List Char) : Bool :=
  let r1 := match r with
    | ',' :: t => t
    | t => t
  match wsPlus r1 with
  | none => false
  | some (c1 :: r3) =>
    if ¬ isDigitChar c1 then false
    else
      match r3 with
      | c2 :: r4 =>
        if isDigitChar c2 then
          match r4 with
          | c3 :: _ => if isDigitChar c3 then false else dateMonthEnd r4
          | [] => false
        else dateMonthEnd r3
      | [] => false
  | some [] => false

/-- The full date-label regex
`^(weekday),?\s+\d{1,2}\s+(month)$` (line 2132), on an
already-lowercased character list. -/
def dateLabelTest (t : List Char) : Bool :=
  weekdayNames.any (fun w => w.data.isPrefixOf t && dateRest (t.drop w.data.length))

/-- In-page `isUiNoise` (lines 2102–2138): normalized lowercase text is
noise when empty, in the exact denylist, a relative-date or weekday
label, a full date label, or contains a login/registration string. -/
def isUiNoise (text : String) : Bool :=
  let t : List Char := jsLower (normString text)
  if t = [] then true
  else if exactNoise.any (fun w => t = w.data) then true
  else if t = "сегодня".data || t = "вчера".data then true
  else if weekdayNames.any (fun w => t = w.data) then true
  else if dateLabelTest t then true
  else if containsSub "войти".data t || containsSub "регистрация".data t then true
  else false

/-! ## Push observer (lines 2183–2228) -/

/-- State of the push path: the in-page `seen` set (in insertion order)
and the host-side `lastFingerprint`. -/
structure PushState where
  seen : List String
  lastFp : String
deriving DecidableEq, Repr

/-- The last `n` elements of a list. -/
def takeLast (n : Nat) (l : List α) : List α := l.drop (l.length - n)

/-- The in-page `seen` bookkeeping (lines 2203–2208): add the text; when
the set exceeds 200 entries keep the most recent 80. -/
def seenInsert (seen : List String) (t : String) : List String :=
  let s2 := seen ++ [t]
  if 200 < s2.length then takeLast 80 s2 else s2

/-- One push-path observation (in-page `handleNode` per message node,
lines 2196–2212, then the `__emitAvitoMessage` bridge): filters empty,
over-long and noise texts, suppresses texts already in the in-page `seen`
set, and otherwise forwards to the bridge. -/
def pushStep (st : PushState) (target : String) (text : String) :
    PushState × Option LastMsg :=
  if text = "" ∨ 4000 < text.length ∨ isUiNoise text then (st, none)
  else if text ∈ st.seen then (st, none)
  else
    let seen2 := seenInsert st.seen text
    match bridgeEmit st.lastFp target text with
    | (fp2, e) => (⟨seen2, fp2⟩, e)

/-- The push path over a sequence of observed added-node texts: the list
of emitted message events, in order. -/
def pushRun (st : PushState) (target : String) : List String → List LastMsg
  | [] => []
  | t :: rest =>
    match pushStep st target t with
    | (st2, some m) => m :: pushRun st2 target rest
    | (st2, none) => pushRun st2 target rest

/-! ## watchLoop mode selection (lines 2000–2061) -/

/-- The mode `watchLoop` settles into: an early return when a support
chat was detected, the observer wait loop when
`installRealtimeObserver` succeeded, the polling loop otherwise. -/
inductive WatchMode where
  | pausedSupport
  | observing
  | polling
deriving DecidableEq, Repr

/-- Mode selection of `watchLoop` as a function of `supportChatDetected`
and the observer-installation outcome (`catch` maps a rejection to
`false`). -/
def watchLoopMode (support : Bool) (installed : Bool) : WatchMode :=
  if support then .pausedSupport
  else if installed then .observing
  else .polling

/-- Is the push observer the active detection path in this mode? -/
def observerActive : WatchMode → Bool
  | .observing => true
  | _ => false

/-- Is the polling loop the active detection path in this mode? -/
def pollingActive : WatchMode → Bool
  | .polling => true
  | _ => false

/-! ## WebSocket gateway (src/src/ws.gateway.ts) -/

/-- `WsGateway.HISTORY_LIMIT` (line 11). -/
def HISTORY_LIMIT : Nat := 50

/-- Actions at the gateway: an `emit` on the event bus or a new client
connection. -/
inductive GwAction (α : Type) where
  | emit (e : α)
  | connect
deriving DecidableEq, Repr

/-- Gateway state: the bounded `history` buffer and, per connected
client, the list of events delivered to it so far (in delivery order). -/
structure GwState (α : Type) where
  history : List α
  clients : List (List α)
deriving DecidableEq, Repr

/-- The history update of the bus subscription (lines 14–16): push the
event, then `shift` when the buffer exceeds `HISTORY_LIMIT`. -/
def pushCap (h : List α) (e : α) : List α :=
  let h2 := h ++ [e]
  if HISTORY_LIMIT < h2.length then h2.tail else h2

/-- One gateway step: `emit` appends to history and broadcasts to every
client in connection order (lines 13–19, 44–54); `connect` replays the
current history to the new client (lines 35–41; the synthetic
"WS connected" status is not an emitted event and is not modelled). -/
def gwStep (g : GwState α) : GwAction α → GwState α
  | .emit e => ⟨pushCap g.history e, g.clients.map (· ++ [e])⟩
  | .connect => ⟨g.history, g.clients ++ [g.history]⟩

/-- Run the gateway from its initial state over an action trace. -/
def gwRun (acts : List (GwAction α)) : GwState α :=
  acts.foldl gwStep ⟨[], []⟩

/-- The events emitted in a trace, in emission order. -/
def emittedOf : List (GwAction α) → List α
  | [] => []
  | .emit e :: r => e :: emittedOf r
  | .connect :: r => emittedOf r

/-! ## Helper lemmas -/

theorem jsLower_append (a b : String) :
    jsLower (a ++ b) = jsLower a ++ jsLower b := by
  simp [jsLower, String.data_append]

theorem isPrefixOf_append_right {pat t b : List Char}
    (h : pat.isPrefixOf t = true) : pat.isPrefixOf (t ++ b) = true := by
  rw [List.isPrefixOf_iff_prefix] at h ⊢
  exact h.trans (List.prefix_append t b)

theorem existsSuffix_self {p : List Char → Bool} {l : List Char}
    (h : p l = true) : existsSuffix p l = true := by
  cases l <;> simp [existsSuffix, h]

theorem existsSuffix_append_left {p q : List Char → Bool} {b : List Char}
    (hpq : ∀ t, p t = true → q (t ++ b) = true) :
    ∀ {a : List Char}, existsSuffix p a = true →
      existsSuffix q (a ++ b) = true := by
  intro a
  induction a with
  | nil =>
    intro h
    simp only [existsSuffix] at h
    exact existsSuffix_self (by simpa using hpq [] h)
  | cons c r ih =>
    intro h
    simp only [existsSuffix, Bool.or_eq_true] at h
    rcases h with h | h
    · have := hpq (c :: r) h
      simp only [List.cons_append, existsSuffix, Bool.or_eq_true]
      exact Or.inl (by simpa using this)
    · simp only [List.cons_append, existsSuffix, Bool.or_eq_true]
      exact Or.inr (ih h)

theorem containsSub_append_left {pat a b : List Char}
    (h : containsSub pat a = true) : containsSub pat (a ++ b) = true :=
  existsSuffix_append_left (fun _ ht => isPrefixOf_append_right ht) h

theorem containsSub_self {l : List Char} : containsSub l l = true :=
  existsSuffix_self (by rw [List.isPrefixOf_iff_prefix])

theorem subThenBoundary_append_left (pat a b : List Char)
    (h : subThenBoundaryStrict pat a = true) :
    subThenBoundary pat (a ++ b) = true := by
  unfold subThenBoundaryStrict at h
  unfold subThenBoundary
  refine existsSuffix_append_left ?_ h
  intro t ht
  rw [Bool.and_eq_true] at ht
  obtain ⟨hp, hb⟩ := ht
  rw [Bool.and_eq_true]
  refine ⟨isPrefixOf_append_right hp, ?_⟩
  have hle : pat.length ≤ t.length := (List.isPrefixOf_iff_prefix.mp hp).length_le
  rw [List.drop_append_eq_append_drop]
  have h0 : pat.length - t.length = 0 := by omega
  rw [h0, List.drop_zero]
  cases hd : t.drop pat.length with
  | nil => rw [hd] at hb; simp [boundaryChar] at hb
  | cons c rest =>
    rw [hd] at hb
    simp only [boundaryChar] at hb
    simpa [boundaryOk] using hb

theorem pollStep_emit {floor : String} {o : Option LastMsg} {m : LastMsg}
    (h : (pollStep floor o).2 = some m) : o = some m := by
  cases o with
  | none => simp [pollStep] at h
  | some x =>
    simp only [pollStep] at h
    split at h
    · exact h
    · simp at h

theorem pollRun_mem {e : LastMsg} :
    ∀ {obs : List (Option LastMsg)} {floor : String},
      e ∈ pollRun floor obs → some e ∈ obs := by
  intro obs
  induction obs with
  | nil => intro floor h; simp [pollRun] at h
  | cons o rest ih =>
    intro floor h
    simp only [pollRun] at h
    rcases ho : pollStep floor o with ⟨f2, em⟩
    rw [ho] at h
    cases em with
    | none =>
      exact List.mem_cons_of_mem _ (ih h)
    | some m =>
      rcases List.mem_cons.mp h with h | h
      · subst h
        have hoe : o = some e := pollStep_emit (by rw [ho])
        rw [hoe]
        exact List.mem_cons_self _ _
      · exact List.mem_cons_of_mem _ (ih h)

theorem pollRun_replicate_skip (M : LastMsg) (rest : List (Option LastMsg)) :
    ∀ n : Nat,
      pollRun (fingerprintOf M.from_ M.text)
        (List.replicate n (some M) ++ rest) =
      pollRun (fingerprintOf M.from_ M.text) rest := by
  intro n
  induction n with
  | zero => simp
  | succ k ih =>
    rw [List.replicate_succ, List.cons_append]
    have hstep : pollStep (fingerprintOf M.from_ M.text) (some M) =
        (fingerprintOf M.from_ M.text, none) := by
      simp [pollStep]
    simp only [pollRun, hstep]
    exact ih

theorem takeLast_suffix (n : Nat) (l : List α) : takeLast n l <:+ l :=
  List.drop_suffix _ _

theorem takeLast_length_le (n : Nat) (l : List α) :
    (takeLast n l).length ≤ n := by
  simp only [takeLast, List.length_drop]
  omega

theorem tail_append_of_ne_nil {l t : List α} (h : l ≠ []) :
    (l ++ t).tail = l.tail ++ t := by
  cases l with
  | nil => exact absurd rfl h
  | cons a r => simp

theorem pushCap_takeLast (E : List α) (e : α) :
    pushCap (takeLast HISTORY_LIMIT E) e = takeLast HISTORY_LIMIT (E ++ [e]) := by
  have h50 : HISTORY_LIMIT = 50 := rfl
  by_cases h : E.length < HISTORY_LIMIT
  · have h0 : E.length - HISTORY_LIMIT = 0 := by omega
    have h1 : E.length + 1 - HISTORY_LIMIT = 0 := by omega
    simp only [pushCap, takeLast, h0, List.drop_zero, List.length_append,
      List.length_cons, List.length_nil, h1]
    have : ¬ HISTORY_LIMIT < E.length + 1 := by omega
    simp [this]
  · push_neg at h
    have hlen : (E.drop (E.length - HISTORY_LIMIT)).length = HISTORY_LIMIT := by
      simp only [List.length_drop]; omega
    have hne : E.drop (E.length - HISTORY_LIMIT) ≠ [] := by
      intro hc
      rw [hc] at hlen
      simp [HISTORY_LIMIT] at hlen
    have hcond : HISTORY_LIMIT <
        (E.drop (E.length - HISTORY_LIMIT) ++ [e]).length := by
      rw [List.length_append, hlen]
      simp
    simp only [pushCap, takeLast]
    rw [if_pos hcond, tail_append_of_ne_nil hne]
    have hlen2 : (E ++ [e]).length = E.length + 1 := by simp
    rw [hlen2, List.drop_append_eq_append_drop]
    have h0 : E.length + 1 - HISTORY_LIMIT - E.length = 0 := by omega
    rw [h0, List.drop_zero]
    congr 1
    rw [← List.drop_one, List.drop_drop]
    congr 1
    omega

/-- The gateway invariant: the history is the bounded suffix of the
emission trace, and every client's delivered list splits the trace into a
replayed bounded suffix of the pre-connection prefix plus all later
events. -/
def gwInv (E : List α) (g : GwState α) : Prop :=
  g.history = takeLast HISTORY_LIMIT E ∧
  ∀ c ∈ g.clients, ∃ pre post, E = pre ++ post ∧
    c = takeLast HISTORY_LIMIT pre ++ post

theorem gwStep_inv {E : List α} {g : GwState α} (hg : gwInv E g) :
    ∀ a : GwAction α, gwInv (E ++ emittedOf [a]) (gwStep g a) := by
  rcases hg with ⟨hh, hc⟩
  intro a
  cases a with
  | emit e =>
    constructor
    · simp only [gwStep, emittedOf, hh]
      exact pushCap_takeLast E e
    · intro c hcmem
      simp only [gwStep, List.mem_map] at hcmem
      rcases hcmem with ⟨c0, hc0, rfl⟩
      rcases hc c0 hc0 with ⟨pre, post, hE, hco⟩
      exact ⟨pre, post ++ [e], by simp [emittedOf, hE],
        by simp [hco, List.append_assoc]⟩
  | connect =>
    constructor
    · simpa [gwStep, emittedOf] using hh
    · intro c hcmem
      simp only [gwStep, emittedOf, List.append_nil] at hcmem ⊢
      rcases List.mem_append.mp hcmem with h | h
      · exact hc c h
      · rcases List.mem_singleton.mp h with rfl
        exact ⟨E, [], by simp, by simp [hh]⟩

theorem gwFold_inv :
    ∀ (acts : List (GwAction α)) (E : List α) (g : GwState α), gwInv E g →
      gwInv (E ++ emittedOf acts) (List.foldl gwStep g acts) := by
  intro acts
  induction acts with
  | nil => intro E g h; simpa [emittedOf] using h
  | cons a r ih =>
    intro E g h
    have step := gwStep_inv h a
    have := ih (E ++ emittedOf [a]) (gwStep g a) step
    rw [List.foldl_cons]
    have hsplit : E ++ emittedOf (a :: r) = (E ++ emittedOf [a]) ++ emittedOf r := by
      cases a <;> simp [emittedOf]
    rw [hsplit]
    exact this

theorem gwRun_inv (acts : List (GwAction α)) :
    gwInv (emittedOf acts) (gwRun acts) := by
  have h0 : gwInv ([] : List α) ⟨[], []⟩ := by
    constructor
    · simp [takeLast]
    · intro c hc; simp at hc
  simpa using gwFold_inv acts [] ⟨[], []⟩ h0

/-! ## Claim theorems -/

/-- C1 counterexample: the classifier maps the empty string to `other`,
not to `none`; the `none` kind is produced only by the status endpoint
when no binding exists. -/
theorem classifyUrl_empty_is_other :
    classifyUrl "" = BindKind.other ∧ BindKind.other ≠ BindKind.none := by
  decide

/-- C1 (amended): any location containing the channel path shape
classifies as `channel` regardless of trailing content (in particular a
trailing `?q=` query, so the channel shape takes priority over the
search/root shapes); every location that is not channel-shaped, matches
the conversation-list root shape and carries a `q=` parameter classifies
as `search` — in particular every URL of the form root-spelling plus
`?q=` plus an arbitrary query value, for both root spellings; every
non-channel root-shaped location without a `q=` parameter classifies as
`messenger` (the spec's messenger-root), in particular both bare-root
spellings; and the empty string classifies as `other` (not `none`). -/
theorem classifyUrl_shapes :
    (∀ rest : String,
      classifyUrl ("https://www.avito.ru/profile/messenger/channel/" ++ rest) =
        BindKind.channel) ∧
    (∀ url : String, isChannelUrl url = true →
      classifyUrl url = BindKind.channel) ∧
    (∀ url : String, isChannelUrl url = false →
      (messengerUrlTest (jsLower url) || messengerSearchTest (jsLower url)) = true →
      messengerSearchQueryTest (jsLower url) = true →
      classifyUrl url = BindKind.search) ∧
    (∀ url : String, isChannelUrl url = false →
      (messengerUrlTest (jsLower url) || messengerSearchTest (jsLower url)) = true →
      messengerSearchQueryTest (jsLower url) = false →
      classifyUrl url = BindKind.messenger) ∧
    (∀ q : String,
      isChannelUrl ("https://www.avito.ru/profile/messenger?q=" ++ q) = false →
      classifyUrl ("https://www.avito.ru/profile/messenger?q=" ++ q) =
        BindKind.search) ∧
    (∀ q : String,
      isChannelUrl ("https://www.avito.ru/messenger?q=" ++ q) = false →
      classifyUrl ("https://www.avito.ru/messenger?q=" ++ q) = BindKind.search) ∧
    classifyUrl "https://www.avito.ru/profile/messenger" = BindKind.messenger ∧
    classifyUrl "https://www.avito.ru/messenger" = BindKind.messenger ∧
    classifyUrl "https://www.avito.ru/profile/messenger?q=phone" = BindKind.search ∧
    classifyUrl "" = BindKind.other := by
  have hsearch : ∀ url : String, isChannelUrl url = false →
      (messengerUrlTest (jsLower url) || messengerSearchTest (jsLower url)) = true →
      messengerSearchQueryTest (jsLower url) = true →
      classifyUrl url = BindKind.search := by
    intro url h1 h2 h3
    simp [classifyUrl, h1, h2, h3]
  have hmess : ∀ url : String, isChannelUrl url = false →
      (messengerUrlTest (jsLower url) || messengerSearchTest (jsLower url)) = true →
      messengerSearchQueryTest (jsLower url) = false →
      classifyUrl url = BindKind.messenger := by
    intro url h1 h2 h3
    simp [classifyUrl, h1, h2, h3]
  have hq1 : ∀ q : String,
      isChannelUrl ("https://www.avito.ru/profile/messenger?q=" ++ q) = false →
      classifyUrl ("https://www.avito.ru/profile/messenger?q=" ++ q) =
        BindKind.search := by
    intro q hch
    have hs : subThenBoundaryStrict "avito.ru/profile/messenger".data
        (jsLower "https://www.avito.ru/profile/messenger?q=") = true := by decide
    have hroot : messengerUrlTest
        (jsLower ("https://www.avito.ru/profile/messenger?q=" ++ q)) = true := by
      unfold messengerUrlTest
      rw [jsLower_append]
      rw [subThenBoundary_append_left "avito.ru/profile/messenger".data
        (jsLower "https://www.avito.ru/profile/messenger?q=") (jsLower q) hs]
      simp
    have hquery : messengerSearchQueryTest
        (jsLower ("https://www.avito.ru/profile/messenger?q=" ++ q)) = true := by
      unfold messengerSearchQueryTest
      rw [jsLower_append]
      have hc : containsSub "?q=".data
          (jsLower "https://www.avito.ru/profile/messenger?q=") = true := by decide
      rw [containsSub_append_left hc]
      simp
    exact hsearch _ hch (by rw [hroot]; simp) hquery
  have hq2 : ∀ q : String,
      isChannelUrl ("https://www.avito.ru/messenger?q=" ++ q) = false →
      classifyUrl ("https://www.avito.ru/messenger?q=" ++ q) = BindKind.search := by
    intro q hch
    have hs : subThenBoundaryStrict "avito.ru/messenger".data
        (jsLower "https://www.avito.ru/messenger?q=") = true := by decide
    have hroot : messengerUrlTest
        (jsLower ("https://www.avito.ru/messenger?q=" ++ q)) = true := by
      unfold messengerUrlTest
      rw [jsLower_append]
      rw [subThenBoundary_append_left "avito.ru/messenger".data
        (jsLower "https://www.avito.ru/messenger?q=") (jsLower q) hs]
      simp
    have hquery : messengerSearchQueryTest
        (jsLower ("https://www.avito.ru/messenger?q=" ++ q)) = true := by
      unfold messengerSearchQueryTest
      rw [jsLower_append]
      have hc : containsSub "?q=".data
          (jsLower "https://www.avito.ru/messenger?q=") = true := by decide
      rw [containsSub_append_left hc]
      simp
    exact hsearch _ hch (by rw [hroot]; simp) hquery
  refine ⟨?_, ?_, hsearch, hmess, hq1, hq2, by decide, by decide, by decide,
    by decide⟩
  · intro rest
    have hpre : containsSub "/profile/messenger/channel/".data
        (jsLower "https://www.avito.ru/profile/messenger/channel/") = true := by
      decide
    have hpath : messengerChannelPathTest
        (jsLower ("https://www.avito.ru/profile/messenger/channel/" ++ rest)) = true := by
      rw [jsLower_append]
      exact containsSub_append_left hpre
    have hch : isChannelUrl
        ("https://www.avito.ru/profile/messenger/channel/" ++ rest) = true := by
      unfold isChannelUrl
      rw [hpath]
      simp
    simp [classifyUrl, hch]
  · intro url h
    simp [classifyUrl, h]

/-- C1 witness: the channel-priority clause at a concrete channel URL, and
the universal search clauses at concrete query values for both root
spellings. -/
theorem classifyUrl_shapes_witness :
    (isChannelUrl "https://m.avito.ru/messenger/channel/xyz" = true ∧
      classifyUrl "https://m.avito.ru/messenger/channel/xyz" = BindKind.channel) ∧
    (isChannelUrl ("https://www.avito.ru/profile/messenger?q=" ++ "phone") = false ∧
      classifyUrl ("https://www.avito.ru/profile/messenger?q=" ++ "phone") =
        BindKind.search) ∧
    (isChannelUrl ("https://www.avito.ru/messenger?q=" ++ "tv") = false ∧
      classifyUrl ("https://www.avito.ru/messenger?q=" ++ "tv") = BindKind.search) :=
  ⟨⟨by decide,
    classifyUrl_shapes.2.1 "https://m.avito.ru/messenger/channel/xyz" (by decide)⟩,
   ⟨by decide, classifyUrl_shapes.2.2.2.2.1 "phone" (by decide)⟩,
   ⟨by decide, classifyUrl_shapes.2.2.2.2.2.1 "tv" (by decide)⟩⟩

/-- C4 counterexample: with `AUTO_BIND_ON_OPEN` enabled the watcher's
auto-bind path writes the bare messenger root — a URL that does not
classify as `channel` — to the binding file. -/
theorem autoBind_writes_nonchannel :
    maybePersistBoundChatUrl (some "https://www.avito.ru/profile/messenger")
        true "messenger-open" =
      some ⟨"https://www.avito.ru/profile/messenger", "messenger-open"⟩ ∧
    classifyUrl "https://www.avito.ru/profile/messenger" ≠ BindKind.channel := by
  decide

/-- C4 (amended): the binding-file write paths enforce only the
messenger-URL shape, not channel classification: the watcher's auto-bind
path writes exactly the URLs passing `isMessengerUrl` (root, search or
channel), and part_002's external bind handler writes only when the
initial candidate passes the messenger test (the written URL itself may
be a non-channel one, with a warning).  Part_003's bind handler does
restrict writes to channel-classified URLs, and the watcher's read path
(`readBoundChatUrl`) only ever yields URLs passing the channel-segment
test. -/
theorem binding_write_guards :
    (∀ (url : Option String) (autoBind : Bool) (reason : String)
        (rec : BindRecord),
      maybePersistBoundChatUrl url autoBind reason = some rec →
        isMessengerUrl (some rec.url) = true) ∧
    (∀ (init : String) (ens : EnsureResult) (u : String),
      bindCurrentWrite02 init ens = some u →
        messengerUrlTest (jsLower init) = true) ∧
    (∀ (cand u : String), bindCurrentWrite03 cand = some u →
        classifyUrl u = BindKind.channel) ∧
    (∀ (fs : FileState) (u : String), readBoundChatUrl fs = some u →
        isMessengerChannelUrl (some u) = true) := by
  refine ⟨?_, ?_, ?_, ?_⟩
  · intro url autoBind reason rec h
    cases url with
    | none => simp [maybePersistBoundChatUrl] at h
    | some u =>
      simp only [maybePersistBoundChatUrl] at h
      split at h
      · simp at h
      · split at h
        · simp at h
        · rename_i hmsg
          rw [Bool.not_eq_true, ← Bool.not_eq_true] at hmsg
          cases h' : isMessengerUrl (some u) with
          | false => exact absurd h' (by simpa using hmsg)
          | true =>
            obtain rfl : BindRecord.mk u reason = rec := Option.some.inj h
            exact h'
  · intro init ens u h
    simp only [bindCurrentWrite02] at h
    split at h
    · simp at h
    · split at h
      · simp at h
      · rename_i hmsg
        rw [Bool.not_eq_true, ← Bool.not_eq_true] at hmsg
        cases h' : messengerUrlTest (jsLower init) with
        | false => exact absurd h' (by simpa using hmsg)
        | true => rfl
  · intro cand u h
    simp only [bindCurrentWrite03] at h
    split at h
    · simp at h
    · split at h
      · rename_i hcl
        obtain rfl : normalizeUrl cand = u := Option.some.inj h
        exact hcl
      · simp at h
  · intro fs u h
    cases fs with
    | missing => simp [readBoundChatUrl] at h
    | unreadable => simp [readBoundChatUrl] at h
    | unparseable => simp [readBoundChatUrl] at h
    | record url boundAt =>
      simp only [readBoundChatUrl] at h
      split at h
      · simp at h
      · split at h
        · simp at h
        · rename_i hch
          obtain rfl : jsTrim url = u := Option.some.inj h
          simpa using hch

/-- C4 witness: the amended guards at concrete write inputs. -/
theorem binding_write_guards_witness :
    isMessengerUrl (some "https://www.avito.ru/profile/messenger") = true ∧
    classifyUrl "https://www.avito.ru/profile/messenger/channel/a" = BindKind.channel := by
  constructor
  · exact binding_write_guards.1 (some "https://www.avito.ru/profile/messenger")
      true "messenger-open" ⟨"https://www.avito.ru/profile/messenger", "messenger-open"⟩
      (by decide)
  · exact binding_write_guards.2.2.1 "/profile/messenger/channel/a"
      "https://www.avito.ru/profile/messenger/channel/a" (by decide)

/-- C5 counterexample: both binding readers can yield a non-null result
for a record whose stored location does not classify as `channel`: the
watcher's reader accepts any URL containing the `/messenger/channel/`
segment (here on a non-avito host, which classifies as `other`), and the
controller's reader applies no classification at all. -/
theorem binding_read_nonchannel :
    readBoundChatUrl (.record "https://example.com/messenger/channel/x" "t") =
      some "https://example.com/messenger/channel/x" ∧
    classifyUrl "https://example.com/messenger/channel/x" ≠ BindKind.channel ∧
    controllerRead (.record "https://google.com" "2024") =
      some ("https://google.com", "2024") ∧
    classifyUrl "https://google.com" ≠ BindKind.channel := by
  decide

/-- C5 (amended): reading the binding is total (all I/O and parse errors
are caught) and yields `null` for a missing, unreadable or unparseable
file and for an empty stored URL; the watcher's reader additionally
yields `null` exactly when the trimmed URL fails the `/messenger/channel/`
substring test — a weaker check than full channel classification — and
otherwise yields the trimmed URL; the controller's reader (part_003)
yields every record with a non-empty URL without classifying it. -/
theorem binding_read_fails_soft :
    readBoundChatUrl .missing = none ∧
    readBoundChatUrl .unreadable = none ∧
    readBoundChatUrl .unparseable = none ∧
    (∀ url b, jsTrim url = "" → readBoundChatUrl (.record url b) = none) ∧
    (∀ url b, isMessengerChannelUrl (some (jsTrim url)) = false →
      readBoundChatUrl (.record url b) = none) ∧
    (∀ url b, isMessengerChannelUrl (some (jsTrim url)) = true →
      readBoundChatUrl (.record url b) = some (jsTrim url)) ∧
    controllerRead .missing = none ∧
    controllerRead .unreadable = none ∧
    controllerRead .unparseable = none ∧
    (∀ url b, jsTrim url = "" → controllerRead (.record url b) = none) := by
  refine ⟨rfl, rfl, rfl, ?_, ?_, ?_, rfl, rfl, rfl, ?_⟩
  · intro url b h
    simp [readBoundChatUrl, h]
  · intro url b h
    simp [readBoundChatUrl, h]
  · intro url b h
    have hne : jsTrim url ≠ "" := by
      intro hc
      rw [hc] at h
      exact absurd h (by decide)
    simp [readBoundChatUrl, hne, h]
  · intro url b h
    simp [controllerRead, h]

/-- C5 witness: the amended reader contract at concrete file states. -/
theorem binding_read_fails_soft_witness :
    readBoundChatUrl (.record "  " "t") = none ∧
    readBoundChatUrl (.record "https://www.avito.ru" "t") = none ∧
    readBoundChatUrl
        (.record " https://www.avito.ru/profile/messenger/channel/a " "t") =
      some "https://www.avito.ru/profile/messenger/channel/a" ∧
    controllerRead (.record "" "t") = none :=
  ⟨binding_read_fails_soft.2.2.2.1 "  " "t" (by decide),
   binding_read_fails_soft.2.2.2.2.1 "https://www.avito.ru" "t" (by decide),
   binding_read_fails_soft.2.2.2.2.2.1
     " https://www.avito.ru/profile/messenger/channel/a " "t" (by decide),
   binding_read_fails_soft.2.2.2.2.2.2.2.2.2 "" "t" (by decide)⟩

/-- C2 counterexample: for the observation pattern `[A, A, B, A]` with
identical (from, text) the polling path emits `[A, B, A]`, but the push
path emits only `[A, B]`: the in-page `seen` set suppresses the
non-adjacent repeat of `A`, so the claimed behaviour does not hold on
the push-observer path. -/
theorem dedup_AABA_push_differs :
    pollRun "" [some ⟨"u", "hi"⟩, some ⟨"u", "hi"⟩, some ⟨"u", "yo"⟩,
        some ⟨"u", "hi"⟩] =
      [⟨"u", "hi"⟩, ⟨"u", "yo"⟩, ⟨"u", "hi"⟩] ∧
    pushRun ⟨[], ""⟩ "u" ["hi", "hi", "yo", "hi"] =
      [⟨"u", "hi"⟩, ⟨"u", "yo"⟩] ∧
    pushRun ⟨[], ""⟩ "u" ["hi", "hi", "yo", "hi"] ≠
      [⟨"u", "hi"⟩, ⟨"u", "yo"⟩, ⟨"u", "hi"⟩] := by
  decide

/-- C2 (amended): for a watch session observing messages with identical
(from, text) in the pattern `[A, A, B, A]`, the polling path emits
exactly `[A, B, A]` (immediate repeats suppressed, the non-adjacent
repeat re-emitted), while the push path emits exactly `[A, B]`: its
in-page `seen` set additionally suppresses every already-seen text for
the session (until trimmed past 200 entries), so non-adjacent repeats
are not re-emitted there. -/
theorem dedup_AABA (f tA tB floor : String)
    (hA : fingerprintOf f tA ≠ "")
    (hB : fingerprintOf f tB ≠ "")
    (hAfloor : fingerprintOf f tA ≠ floor)
    (hAB : fingerprintOf f tA ≠ fingerprintOf f tB)
    (htA : ¬ (tA = "" ∨ 4000 < tA.length ∨ isUiNoise tA = true))
    (htB : ¬ (tB = "" ∨ 4000 < tB.length ∨ isUiNoise tB = true))
    (htAB : tA ≠ tB) :
    pollRun floor [some ⟨f, tA⟩, some ⟨f, tA⟩, some ⟨f, tB⟩, some ⟨f, tA⟩] =
      [⟨f, tA⟩, ⟨f, tB⟩, ⟨f, tA⟩] ∧
    pushRun ⟨[], floor⟩ f [tA, tA, tB, tA] = [⟨f, tA⟩, ⟨f, tB⟩] := by
  have hBA : fingerprintOf f tB ≠ fingerprintOf f tA := fun hc => hAB hc.symm
  constructor
  · have s1 : pollStep floor (some ⟨f, tA⟩) =
        (fingerprintOf f tA, some ⟨f, tA⟩) := by
      simp only [pollStep]
      rw [if_pos ⟨hA, hAfloor⟩]
    have s2 : pollStep (fingerprintOf f tA) (some ⟨f, tA⟩) =
        (fingerprintOf f tA, none) := by
      simp [pollStep]
    have s3 : pollStep (fingerprintOf f tA) (some ⟨f, tB⟩) =
        (fingerprintOf f tB, some ⟨f, tB⟩) := by
      simp only [pollStep]
      rw [if_pos ⟨hB, hBA⟩]
    have s4 : pollStep (fingerprintOf f tB) (some ⟨f, tA⟩) =
        (fingerprintOf f tA, some ⟨f, tA⟩) := by
      simp only [pollStep]
      rw [if_pos ⟨hA, hAB⟩]
    simp only [pollRun, s1, s2, s3, s4]
  · have hAne : tA ≠ "" := fun hc => htA (Or.inl hc)
    have hBne : tB ≠ "" := fun hc => htB (Or.inl hc)
    have hbrA : bridgeEmit floor f tA = (fingerprintOf f tA, some ⟨f, tA⟩) := by
      simp only [bridgeEmit]
      rw [if_neg hAne, if_neg (by simp [hA, hAfloor])]
    have hbrB : bridgeEmit (fingerprintOf f tA) f tB =
        (fingerprintOf f tB, some ⟨f, tB⟩) := by
      simp only [bridgeEmit]
      rw [if_neg hBne, if_neg (by simp [hB, hBA])]
    have hseenA : seenInsert [] tA = [tA] := by
      simp only [seenInsert, List.nil_append, List.length_cons, List.length_nil]
      rw [if_neg (by decide)]
    have hseenB : seenInsert [tA] tB = [tA, tB] := by
      simp only [seenInsert, List.length_append, List.length_cons, List.length_nil]
      rw [if_neg (by decide)]
      rfl
    have p1 : pushStep ⟨[], floor⟩ f tA =
        (⟨[tA], fingerprintOf f tA⟩, some ⟨f, tA⟩) := by
      simp only [pushStep]
      rw [if_neg htA, if_neg (by simp), hbrA, hseenA]
    have p2 : pushStep ⟨[tA], fingerprintOf f tA⟩ f tA =
        (⟨[tA], fingerprintOf f tA⟩, none) := by
      simp only [pushStep]
      rw [if_neg htA, if_pos (by simp)]
    have p3 : pushStep ⟨[tA], fingerprintOf f tA⟩ f tB =
        (⟨[tA, tB], fingerprintOf f tB⟩, some ⟨f, tB⟩) := by
      simp only [pushStep]
      rw [if_neg htB,
        if_neg (by simp only [List.mem_singleton]; exact fun hc => htAB hc.symm),
        hbrB, hseenB]
    have p4 : pushStep ⟨[tA, tB], fingerprintOf f tB⟩ f tA =
        (⟨[tA, tB], fingerprintOf f tB⟩, none) := by
      simp only [pushStep]
      rw [if_neg htA, if_pos (by simp)]
    simp only [pushRun, p1, p2, p3, p4]

/-- C2 witness: the amended dedup behaviour at a concrete session. -/
theorem dedup_AABA_witness :
    pollRun "" [some ⟨"s", "aa"⟩, some ⟨"s", "aa"⟩, some ⟨"s", "bb"⟩,
        some ⟨"s", "aa"⟩] =
      [⟨"s", "aa"⟩, ⟨"s", "bb"⟩, ⟨"s", "aa"⟩] ∧
    pushRun ⟨[], ""⟩ "s" ["aa", "aa", "bb", "aa"] = [⟨"s", "aa"⟩, ⟨"s", "bb"⟩] :=
  dedup_AABA "s" "aa" "bb" "" (by decide) (by decide) (by decide) (by decide)
    (by decide) (by decide) (by decide)

/-- C3: when the only pre-existing message at watch start is `M`
(read as the baseline), the baseline capture stores `M`'s fingerprint
without emitting anything, and over any polling trace that observes `M`
for a while and then only later content, no event for `M` is ever
emitted: every emitted event is an observation from the post-baseline
part of the trace. -/
theorem baseline_no_replay (target txt : String) (n : Nat)
    (rest : List (Option LastMsg)) (htxt : txt ≠ "")
    (hM : some (⟨target, txt⟩ : LastMsg) ∉ rest) :
    captureLastMessageAsBaseline "" target txt = fingerprintOf target txt ∧
    ∀ e ∈ pollRun (captureLastMessageAsBaseline "" target txt)
        (List.replicate n (some ⟨target, txt⟩) ++ rest),
      e ≠ ⟨target, txt⟩ ∧ some e ∈ rest := by
  have hbase : captureLastMessageAsBaseline "" target txt =
      fingerprintOf target txt := by
    simp [captureLastMessageAsBaseline, readLastMessage, htxt]
  refine ⟨hbase, ?_⟩
  intro e he
  rw [hbase] at he
  have hskip := pollRun_replicate_skip ⟨target, txt⟩ rest n
  rw [hskip] at he
  have hmem : some e ∈ rest := pollRun_mem he
  refine ⟨?_, hmem⟩
  intro hc
  rw [hc] at hmem
  exact hM hmem

/-- C3 witness: the baseline property at a concrete session where the
pre-existing message is observed twice before new content appears. -/
theorem baseline_no_replay_witness :
    captureLastMessageAsBaseline "" "u" "m0" = fingerprintOf "u" "m0" ∧
    ∀ e ∈ pollRun (captureLastMessageAsBaseline "" "u" "m0")
        (List.replicate 2 (some ⟨"u", "m0"⟩) ++ [some ⟨"u", "b1"⟩]),
      e ≠ ⟨"u", "m0"⟩ ∧ some e ∈ [some (⟨"u", "b1"⟩ : LastMsg)] :=
  baseline_no_replay "u" "m0" 2 [some ⟨"u", "b1"⟩] (by decide) (by decide)

/-- C6: during Watching, once observer installation has been attempted
(the loop was not cut short by the support-chat guard), exactly one of
{push observer active, polling loop active} holds: `watchLoop` enters its
observer wait loop when installation succeeded and its polling loop
otherwise, and the two are mutually exclusive in every case. -/
theorem watch_mode_mutual_exclusion (support installed : Bool)
    (h : support = false) :
    (observerActive (watchLoopMode support installed) = true ∧
      pollingActive (watchLoopMode support installed) = false) ∨
    (observerActive (watchLoopMode support installed) = false ∧
      pollingActive (watchLoopMode support installed) = true) := by
  subst h
  cases installed <;> simp [watchLoopMode, observerActive, pollingActive]

/-- C6 witness: exactly one detection path at concrete installation
outcomes. -/
theorem watch_mode_mutual_exclusion_witness :
    ((observerActive (watchLoopMode false true) = true ∧
        pollingActive (watchLoopMode false true) = false) ∨
      (observerActive (watchLoopMode false true) = false ∧
        pollingActive (watchLoopMode false true) = true)) ∧
    ((observerActive (watchLoopMode false false) = true ∧
        pollingActive (watchLoopMode false false) = false) ∨
      (observerActive (watchLoopMode false false) = false ∧
        pollingActive (watchLoopMode false false) = true)) :=
  ⟨watch_mode_mutual_exclusion false true rfl,
   watch_mode_mutual_exclusion false false rfl⟩

/-- C7: when the chat title matches the fixed default/support name set
under a case-insensitive membership test, `verifyNotSupportChat` emits
the re-bind warning and reports the candidate as not genuine, the
`openTargetChat` iteration does not enter watching (it sets the
support-detected flag and retries after a delay), and `watchLoop` with
the support flag set pauses instead of watching. -/
theorem support_title_blocks_watch (title c : String) (support : Bool)
    (la : Option String)
    (h : jsLower title ∈ supportHits.map (fun w => w.data)) :
    (verifyNotSupportChat title).2 = false ∧
    (Level.warn, supportWarnMsg) ∈ (verifyNotSupportChat title).1 ∧
    (openTargetChatIter false (some c) title support la).1 =
      IterOutcome.retryAfterDelay 3000 ∧
    (openTargetChatIter false (some c) title support la).2.1 = true ∧
    (∀ installed, watchLoopMode true installed = WatchMode.pausedSupport) := by
  have hne : title ≠ "" := by
    intro hc
    subst hc
    revert h
    decide
  rcases List.mem_map.mp h with ⟨w, hw, hwl⟩
  have hdet : supportHits.any (fun w => containsSub w.data (jsLower title)) = true := by
    rw [List.any_eq_true]
    refine ⟨w, hw, ?_⟩
    rw [hwl]
    exact containsSub_self
  have hver : verifyNotSupportChat title =
      ([(.info, "Chat title detected"), (.warn, supportWarnMsg)], false) := by
    simp only [verifyNotSupportChat]
    rw [if_neg hne, if_pos hdet]
  refine ⟨by rw [hver], by rw [hver]; simp, ?_, ?_, fun _ => rfl⟩
  · simp only [openTargetChatIter]
    rw [if_neg (by simp)]
    rw [if_neg (by rw [hver]; simp)]
  · simp only [openTargetChatIter]
    rw [if_neg (by simp)]
    rw [if_neg (by rw [hver]; simp)]

/-- C7 witness: a concrete support title blocks watching. -/
theorem support_title_blocks_watch_witness :
    (verifyNotSupportChat "Поддержка").2 = false ∧
    (Level.warn, supportWarnMsg) ∈ (verifyNotSupportChat "Поддержка").1 ∧
    (openTargetChatIter false (some "https://www.avito.ru/profile/messenger/channel/a")
        "Поддержка" false none).1 = IterOutcome.retryAfterDelay 3000 ∧
    (openTargetChatIter false (some "https://www.avito.ru/profile/messenger/channel/a")
        "Поддержка" false none).2.1 = true ∧
    (∀ installed, watchLoopMode true installed = WatchMode.pausedSupport) :=
  support_title_blocks_watch "Поддержка"
    "https://www.avito.ru/profile/messenger/channel/a" false none (by decide)

/-- C8: when no explicit override is configured and the persisted binding
is unreadable, target resolution yields no candidate, and the
`openTargetChat` iteration neither raises nor terminates the loop: it
retries after the 3-second delay with its state unchanged. -/
theorem unresolved_target_retries (fs : FileState) (title : String)
    (support : Bool) (la : Option String)
    (h : readBoundChatUrl fs = none) :
    resolveTargetChatUrl "" fs = none ∧
    openTargetChatIter false (resolveTargetChatUrl "" fs) title support la =
      (IterOutcome.retryAfterDelay 3000, support, la) := by
  have hres : resolveTargetChatUrl "" fs = none := by
    simp [resolveTargetChatUrl, h]
  refine ⟨hres, ?_⟩
  rw [hres]
  simp [openTargetChatIter]

/-- C8 witness: a missing binding file retries rather than failing. -/
theorem unresolved_target_retries_witness :
    resolveTargetChatUrl "" FileState.missing = none ∧
    openTargetChatIter false (resolveTargetChatUrl "" FileState.missing)
        "t" false none =
      (IterOutcome.retryAfterDelay 3000, false, none) :=
  unresolved_target_retries FileState.missing "t" false none (by decide)

/-- C9: the gateway's history is always the bounded suffix of the
emission trace, and every connected client's delivered list splits the
trace into a replayed suffix of at most `HISTORY_LIMIT` (50) events of
the pre-connection prefix followed by all later events — in particular
every client receives events as a suffix of the emission order, with no
reordering. -/
theorem gateway_order_and_replay {α : Type} (acts : List (GwAction α)) :
    (gwRun acts).history = takeLast HISTORY_LIMIT (emittedOf acts) ∧
    ∀ c ∈ (gwRun acts).clients, ∃ pre post,
      emittedOf acts = pre ++ post ∧
      c = takeLast HISTORY_LIMIT pre ++ post ∧
      (takeLast HISTORY_LIMIT pre).length ≤ HISTORY_LIMIT ∧
      c <:+ emittedOf acts := by
  obtain ⟨hh, hc⟩ := gwRun_inv acts
  refine ⟨hh, ?_⟩
  intro c hcm
  obtain ⟨pre, post, hE, hdec⟩ := hc c hcm
  refine ⟨pre, post, hE, hdec, takeLast_length_le _ _, ?_⟩
  obtain ⟨t, ht⟩ := takeLast_suffix HISTORY_LIMIT pre
  refine ⟨t, ?_⟩
  rw [hdec, ← List.append_assoc, ht, ← hE]

/-- C9 witness: a client attached mid-trace receives the replay plus the
later event, as a suffix of the emission order. -/
theorem gateway_order_and_replay_witness :
    [1, 2] ∈ (gwRun [GwAction.emit 1, GwAction.connect, GwAction.emit 2]).clients ∧
    ∃ pre post,
      emittedOf [GwAction.emit 1, GwAction.connect, GwAction.emit 2] = pre ++ post ∧
      [1, 2] = takeLast HISTORY_LIMIT pre ++ post ∧
      (takeLast HISTORY_LIMIT pre).length ≤ HISTORY_LIMIT ∧
      [1, 2] <:+ emittedOf [GwAction.emit 1, GwAction.connect, GwAction.emit 2] :=
  ⟨by decide,
   (gateway_order_and_replay [GwAction.emit 1, GwAction.connect, GwAction.emit 2]).2
     [1, 2] (by decide)⟩

/-- C10: every message event emitted on the stream has non-empty text
and a non-empty fingerprint: the push bridge discards payloads with empty
text or a fingerprint equal to the floor, the polling path only sees
non-empty texts from `readLastMessage` and checks fingerprint truthiness,
and the in-page push filter likewise discards empty extractions. -/
theorem emitted_messages_nonempty (lastFp f t floor target pageText
    txt : String) (st : PushState) :
    (∀ (m : LastMsg) (fp2 : String), bridgeEmit lastFp f t = (fp2, some m) →
      m.text ≠ "" ∧ fingerprintOf m.from_ m.text ≠ "") ∧
    (∀ m : LastMsg, (pollStep floor (readLastMessage target pageText)).2 = some m →
      m.text ≠ "" ∧ fingerprintOf m.from_ m.text ≠ "") ∧
    (∀ (m : LastMsg) (st2 : PushState), pushStep st f txt = (st2, some m) →
      m.text ≠ "" ∧ fingerprintOf m.from_ m.text ≠ "") := by
  have hbr : ∀ (lf ff tt : String) (m : LastMsg) (fp2 : String),
      bridgeEmit lf ff tt = (fp2, some m) →
      m.text ≠ "" ∧ fingerprintOf m.from_ m.text ≠ "" := by
    intro lf ff tt m fp2 h
    simp only [bridgeEmit] at h
    split at h
    · simp at h
    · rename_i hte
      split at h
      · simp at h
      · rename_i hfp
        push_neg at hfp
        obtain ⟨h1, h2⟩ := Prod.mk.injEq .. ▸ h
        obtain rfl : (⟨ff, tt⟩ : LastMsg) = m := Option.some.inj h2
        exact ⟨hte, h1 ▸ hfp.1⟩
  refine ⟨fun m fp2 h => hbr lastFp f t m fp2 h, ?_, ?_⟩
  · intro m h
    simp only [readLastMessage] at h
    split at h
    · simp [pollStep] at h
    · rename_i hpt
      simp only [pollStep] at h
      split at h
      · rename_i hcond
        obtain rfl : (⟨target, pageText⟩ : LastMsg) = m := Option.some.inj h
        exact ⟨hpt, hcond.1⟩
      · simp at h
  · intro m st2 h
    simp only [pushStep] at h
    split at h
    · simp at h
    · split at h
      · simp at h
      · rcases hbe : bridgeEmit st.lastFp f txt with ⟨fp2, e⟩
        rw [hbe] at h
        cases e with
        | none => simp at h
        | some m0 =>
          obtain ⟨_, h2⟩ := Prod.mk.injEq .. ▸ h
          obtain rfl : m0 = m := Option.some.inj h2
          exact hbr st.lastFp f txt m0 fp2 hbe

/-- C10 witness: concrete emissions through each path carry non-empty
text and fingerprint. -/
theorem emitted_messages_nonempty_witness :
    (("hi" : String) ≠ "" ∧ fingerprintOf "u" "hi" ≠ "") ∧
    (("pp" : String) ≠ "" ∧ fingerprintOf "v" "pp" ≠ "") ∧
    (("qq" : String) ≠ "" ∧ fingerprintOf "u" "qq" ≠ "") :=
  ⟨(emitted_messages_nonempty "" "u" "hi" "" "v" "pp" "qq" ⟨[], ""⟩).1
     ⟨"u", "hi"⟩ "u|hi" (by decide),
   (emitted_messages_nonempty "" "u" "hi" "" "v" "pp" "qq" ⟨[], ""⟩).2.1
     ⟨"v", "pp"⟩ (by decide),
   (emitted_messages_nonempty "" "u" "hi" "" "v" "pp" "qq" ⟨[], ""⟩).2.2
     ⟨"u", "qq"⟩ ⟨["qq"], "u|qq"⟩ (by decide)⟩

end AvitoStream
